import Mathlib

/-!
A verification development for the PP3 patch-application core: the section
splitter, the two edit-block parsers, the fuzzy patch engine with its
exact-match fallback, and the document reconstructor.  The TypeScript
sources are embedded shallowly: JS strings become Lean `String`s, the JS
string library functions used by the code (`split("\n")`, `trim`,
`startsWith`, `slice`, first-occurrence `replace`, `indexOf`) are embedded
as explicit Lean functions over `String.data`, JS `Map`s become ordered
association lists with `Map.set`/`Map.get` semantics, and functions that
can `throw` return `Except String`.  JS character classes (`\s`, `.`,
upper/lower case) are embedded at ASCII fidelity; all documents handled by
the tool are ASCII PP3 text.
-/

/-- JS `\s` on ASCII: space, tab, newline, vertical tab, form feed,
carriage return. -/
def isJsWs (c : Char) : Bool :=
  c = ' ' ∨ c = '\t' ∨ c = '\n' ∨ c = '\x0b' ∨ c = '\x0c' ∨ c = '\r'

/-- Remove leading and trailing JS whitespace from a character list. -/
def trimChars (l : List Char) : List Char :=
  ((l.dropWhile isJsWs).reverse.dropWhile isJsWs).reverse

/-- JS `String.prototype.trim` (ASCII). -/
def jsTrim (s : String) : String := ⟨trimChars s.data⟩

/-- JS `String.prototype.startsWith`. -/
def strStartsWith (s pre : String) : Bool := pre.data.isPrefixOf s.data

/-- JS `String.prototype.endsWith`. -/
def strEndsWith (s suf : String) : Bool := suf.data.isSuffixOf s.data

/-- JS `s.slice(1, -1)`: drop the first and the last character. -/
def slice1m1 (s : String) : String := ⟨(s.data.drop 1).dropLast⟩

/-- JS `s.split("\n")` on the character level. -/
def splitLinesData : List Char → List (List Char)
  | [] => [[]]
  | c :: rest =>
    match splitLinesData rest with
    | [] => if c = '\n' then [[], []] else [[c]]
    | h :: t => if c = '\n' then [] :: h :: t else (c :: h) :: t

/-- JS `s.split("\n")`. -/
def splitLines (s : String) : List String :=
  (splitLinesData s.data).map (fun l => ⟨l⟩)

/-- JS `lines.join("\n")` on the character level. -/
def joinLinesData : List (List Char) → List Char
  | [] => []
  | [l] => l
  | l :: ls => l ++ '\n' :: joinLinesData ls

/-- JS `lines.join("\n")`. -/
def joinLines (ls : List String) : String := ⟨joinLinesData (ls.map String.data)⟩

/-- JS `line.split("=")[0]`: everything before the first `=`. -/
def paramKey (s : String) : String := ⟨s.data.takeWhile (fun c => c ≠ '=')⟩

/-- The match of the regex `/^\s*/`: the line's leading whitespace. -/
def leadingWs (s : String) : String := ⟨s.data.takeWhile isJsWs⟩

/-- Whether `pat` occurs as a contiguous substring of `s`. -/
def containsSubData : List Char → List Char → Bool
  | s, pat =>
    if pat.isPrefixOf s then true
    else match s with
      | [] => false
      | _ :: rest => containsSubData rest pat

/-- String-level substring occurrence test. -/
def containsSub (s pat : String) : Bool := containsSubData s.data pat.data

/-- JS `s.replace(pat, rep)` with a string pattern: replace the first
occurrence only; return `s` unchanged when `pat` does not occur.  (JS also
expands `$`-escapes inside `rep`; no theorem below depends on the inserted
text, and the PP3 values handled here contain no `$`.) -/
def replaceFirstData (rep : List Char) : List Char → List Char → List Char
  | s, pat =>
    if pat.isPrefixOf s then rep ++ s.drop pat.length
    else match s with
      | [] => []
      | c :: rest => c :: replaceFirstData rep rest pat

/-- String-level first-occurrence replacement, JS `String.prototype.replace`. -/
def strReplaceFirst (s pat rep : String) : String :=
  ⟨replaceFirstData rep.data s.data pat.data⟩

/-- JS `s.indexOf("=")`: index of the first `=` or `-1`. -/
def jsIndexOfEq (s : String) : Int :=
  match s.data.findIdx? (fun c => c = '=') with
  | some i => (i : Int)
  | none => -1

/-- JS `s.slice(i)` with a possibly negative start index. -/
def jsSliceFrom (s : String) (i : Int) : String :=
  if i < 0 then ⟨s.data.drop ((s.data.length : Int) + i).toNat⟩
  else ⟨s.data.drop i.toNat⟩

/-- JS `Map.prototype.set` on an insertion-ordered association list:
update in place if the key exists, else append. -/
def mapSet (m : List (String × String)) (k v : String) : List (String × String) :=
  if m.any (fun p => p.1 = k) then
    m.map (fun p => if p.1 = k then (k, v) else p)
  else m ++ [(k, v)]

/-- JS `Map.prototype.get`. -/
def mapGet (m : List (String × String)) (k : String) : Option String :=
  (m.find? (fun p => p.1 = k)).map Prod.snd

/-! ### The npm `camelcase` dependency (default options), at ASCII fidelity

`applyParameterChanges` compares old and new parameter values through
`camelcase`.  The library trims its input, short-circuits length 0/1,
runs `preserveCamelCase` when the input has uppercase letters, strips
leading separators, lowercases, and then deletes separator runs and
uppercases the character following separators or digit runs (the two
`replaceAll` passes below, including the quantifier-backtracking corner
where a separator run not followed by an identifier character collapses
onto a late `_`). -/

/-- ASCII uppercase letter, JS `/[\p{Lu}]/u` restricted to ASCII. -/
def isUpperA (c : Char) : Bool := 'A' ≤ c ∧ c ≤ 'Z'

/-- ASCII lowercase letter, JS `/[\p{Ll}]/u` restricted to ASCII. -/
def isLowerA (c : Char) : Bool := 'a' ≤ c ∧ c ≤ 'z'

/-- The `camelcase` separator class `[_.\- ]`. -/
def isSepC (c : Char) : Bool := c = '_' ∨ c = '.' ∨ c = '-' ∨ c = ' '

/-- The `camelcase` identifier class `[\p{Alpha}\p{N}_]` on ASCII. -/
def isIdentC (c : Char) : Bool := isUpperA c ∨ isLowerA c ∨ c.isDigit ∨ c = '_'

/-- The library function `preserveCamelCase`: walk the string inserting `-` at case
transitions.  `out` is the emitted prefix (the mutated string before the
loop index); the three flags mirror `isLastCharLower`, `isLastCharUpper`,
`isLastLastCharUpper`. -/
def pccGo (out : List Char) (lastLower lastUpper lastLastUpper : Bool) :
    List Char → List Char
  | [] => out
  | c :: rest =>
    let preserved : Bool :=
      if out.length > 2 then out.getD (out.length - 3) ' ' = '-' else true
    if lastLower ∧ isUpperA c then
      pccGo (out ++ ['-', c]) false true lastUpper rest
    else if lastUpper ∧ lastLastUpper ∧ isLowerA c ∧ ¬ preserved then
      pccGo (out.dropLast ++ ['-', out.getLastD ' ', c]) true false false rest
    else
      pccGo (out ++ [c]) (isLowerA c) (isUpperA c) lastUpper rest

/-- The function `preserveCamelCase` over a string's characters. -/
def preserveCamelCaseData (l : List Char) : List Char := pccGo [] false false false l

/-- The `replaceAll(SEPARATORS_AND_IDENTIFIER, ...)` pass: a maximal
separator run followed by an identifier character is deleted and the
identifier uppercased; a run at end of input is deleted; a run followed by
anything else backtracks onto its last `_` at index ≥ 1 (the only
character in both classes), collapsing the matched part to `_`. -/
def sepIdentScanGo (run : List Char) : List Char → List Char
  | [] => []
  | c :: rest =>
    if isSepC c then sepIdentScanGo (run ++ [c]) rest
    else if run.isEmpty then c :: sepIdentScanGo [] rest
    else if isIdentC c then (Char.toUpper c) :: sepIdentScanGo [] rest
    else
      match (run.drop 1).reverse.findIdx? (fun x => x = '_') with
      | some j =>
        '_' :: ((run.drop 1).reverse.take j).reverse ++ c :: sepIdentScanGo [] rest
      | none => run ++ c :: sepIdentScanGo [] rest

/-- The separator pass over a whole string (empty pending run). -/
def sepIdentScan (l : List Char) : List Char := sepIdentScanGo [] l

/-- The `replaceAll(NUMBERS_AND_IDENTIFIER, ...)` pass: uppercase the
identifier character following a maximal digit run (digits are unchanged
by uppercasing, so the digits themselves are emitted as they are). -/
def digitIdentScanGo (run : List Char) : List Char → List Char
  | [] => run
  | c :: rest =>
    if c.isDigit then digitIdentScanGo (run ++ [c]) rest
    else if run.isEmpty then c :: digitIdentScanGo [] rest
    else if isIdentC c then run ++ (Char.toUpper c) :: digitIdentScanGo [] rest
    else run ++ c :: digitIdentScanGo [] rest

/-- The digit pass over a whole string (empty pending run). -/
def digitIdentScan (l : List Char) : List Char := digitIdentScanGo [] l

/-- npm `camelcase` with default options, on ASCII input. -/
def camelCase (input : String) : String :=
  let t := trimChars input.data
  if t.length = 0 then ""
  else if t.length = 1 then ⟨t.map Char.toLower⟩
  else
    let t := if t.any isUpperA then preserveCamelCaseData t else t
    let t := t.dropWhile isSepC
    let t := t.map Char.toLower
    let t := sepIdentScan t
    let t := digitIdentScan t
    ⟨t⟩

/-! ### Edit-block parser, dialect A (`parseSearchReplaceBlocks`) -/

/-- A `SEARCH`/`REPLACE` pair, `SearchReplaceBlock` in the source. -/
structure SearchReplaceBlock where
  search : String
  replace : String
deriving DecidableEq, Repr

/-- The parser's mutable `ParseState`. -/
structure SRParseState where
  isInSearch : Bool
  isInReplace : Bool
  searchAcc : List String
  replaceAcc : List String
deriving Repr

/-- One line of the marker state machine: `handleSearchStart`,
`handleSeparator`, `handleReplaceEnd` and `handleContentLine` selected by
`startsWith` marker tests, exactly as in the source's scan loop. -/
def parseStep (acc : SRParseState × List SearchReplaceBlock) (line : String) :
    SRParseState × List SearchReplaceBlock :=
  let st := acc.1
  let blocks := acc.2
  if strStartsWith line "<<<<<<< SEARCH" then
    (⟨true, false, [], []⟩, blocks)
  else if strStartsWith line "=======" then
    ({ st with isInSearch := false, isInReplace := true }, blocks)
  else if strStartsWith line ">>>>>>> REPLACE" then
    ({ st with isInSearch := false, isInReplace := false },
     if st.searchAcc ≠ [] ∧ st.replaceAcc ≠ [] then
       blocks ++ [⟨joinLines st.searchAcc, joinLines st.replaceAcc⟩]
     else blocks)
  else
    let st1 := if st.isInSearch then { st with searchAcc := st.searchAcc ++ [line] } else st
    let st2 := if st1.isInReplace then { st1 with replaceAcc := st1.replaceAcc ++ [line] } else st1
    (st2, blocks)

/-- Source `parseSearchReplaceBlocks`: fold the state machine over the lines. -/
def parseSearchReplaceBlocks (text : String) : List SearchReplaceBlock :=
  ((splitLines text).foldl parseStep (⟨false, false, [], []⟩, [])).2

/-! ### Fuzzy patch engine (`src/pp3-processing/search-replace.ts`)

The `verbose` parameters of the source only gate `console.log` calls and
are dropped from the embedding. -/

/-- A well-formed header test: trimmed line starts with `[` and ends with
`]` (the loop body of `findSectionBoundaries`). -/
def isWFHeader (t : String) : Bool := strStartsWith t "[" ∧ strEndsWith t "]"

/-- Source `findSectionBoundaries`: start = first line trim-equal to the header,
end = next well-formed header line or end of content. -/
def findSectionBoundaries (contentLines : List String) (sectionHeader : String) :
    Option (Nat × Nat) :=
  match contentLines.findIdx? (fun line => jsTrim line = sectionHeader) with
  | none => none
  | some sectionStartIndex =>
    let sectionEndIndex :=
      match (contentLines.drop (sectionStartIndex + 1)).findIdx?
          (fun line => isWFHeader (jsTrim line)) with
      | some j => sectionStartIndex + 1 + j
      | none => contentLines.length
    some (sectionStartIndex, sectionEndIndex)

/-- Source `extractParameters`: the trimmed non-empty lines not starting with `[`. -/
def extractParameters (lines : List String) : List String :=
  (lines.filter (fun line => ¬ strStartsWith (jsTrim line) "[" ∧ jsTrim line ≠ "")).map jsTrim

/-- Source `createReplacementMap`: positional pairing, `Map.set` keyed on the
search parameter's name.  In the source the i-th replace parameter is
looked up by index; the function is only invoked with equally long lists,
where the index lookups coincide with `zip`. -/
def createReplacementMap (searchParameters replaceParameters : List String) :
    List (String × String) :=
  (searchParameters.zip replaceParameters).foldl
    (fun replaceMap pr => mapSet replaceMap (paramKey pr.1) pr.2) []

/-- The loop body of `applyReplacementsInSection` for one line: skip blank
lines; replace a keyed line by its original indentation plus the mapped
replacement value. -/
def replaceLine (replaceMap : List (String × String)) (line : String) : String :=
  let t := jsTrim line
  if t = "" then line
  else
    match mapGet replaceMap (paramKey t) with
    | some replacementValue => leadingWs line ++ replacementValue
    | none => line

/-- The index loop of `applyReplacementsInSection`: positions strictly
between the boundaries get `replaceLine`, all others stay. -/
def applyReplGo (startIndex stopIndex : Nat) (replaceMap : List (String × String)) :
    Nat → List String → List String
  | _, [] => []
  | i, l :: ls =>
    (if startIndex + 1 ≤ i ∧ i < stopIndex then replaceLine replaceMap l else l)
      :: applyReplGo startIndex stopIndex replaceMap (i + 1) ls

/-- Source `applyReplacementsInSection`. -/
def applyReplacementsInSection (contentLines : List String)
    (startIndex stopIndex : Nat) (replaceMap : List (String × String)) : List String :=
  applyReplGo startIndex stopIndex replaceMap 0 contentLines

/-- Source `applyFuzzySearchReplace`. -/
def applyFuzzySearchReplace (content search replace : String) : String :=
  let searchLines := splitLines (jsTrim search)
  let replaceLines := splitLines (jsTrim replace)
  let contentLines := splitLines content
  match searchLines.find? (fun line => strStartsWith (jsTrim line) "[") with
  | none => strReplaceFirst content (jsTrim search) (jsTrim replace)
  | some sectionHeaderLine =>
    let sectionHeader := jsTrim sectionHeaderLine
    match findSectionBoundaries contentLines sectionHeader with
    | none => content
    | some boundaries =>
      let searchParameters := extractParameters searchLines
      let replaceParameters := extractParameters replaceLines
      if searchParameters.length ≠ replaceParameters.length then
        strReplaceFirst content (jsTrim search) (jsTrim replace)
      else
        let replaceMap := createReplacementMap searchParameters replaceParameters
        joinLines (applyReplacementsInSection contentLines boundaries.1 boundaries.2 replaceMap)

/-- Source `applySearchReplaceBlocks`: sequential fold over the blocks; throws on
a block with empty `search` or `replace`; otherwise applies the fuzzy
engine and, when it changed nothing, the literal trimmed replacement. -/
def applySearchReplaceBlocks (content : String) :
    List SearchReplaceBlock → Except String String
  | [] => .ok content
  | block :: rest =>
    if block.search = "" ∨ block.replace = "" then
      .error "Invalid search/replace block format"
    else
      let fuzzyResult := applyFuzzySearchReplace content block.search block.replace
      let result :=
        if fuzzyResult = content then
          strReplaceFirst content (jsTrim block.search) (jsTrim block.replace)
        else fuzzyResult
      applySearchReplaceBlocks result rest

/-! ### Section splitter (`src/pp3-sections/section-parser.ts`)

The source finalizes each section by pushing its trimmed text and firing a
callback with the section's name; the embedding accumulates
(text, name) pairs — `sections` is the first projection and the classifier
filters the pairs on the name — which is the same information the callback
delivers.  The `sectionIndex` counter only feeds the callback's unused
index argument and is dropped. -/

/-- Source `SectionParseState` (minus the index counter). -/
structure SplitState where
  currentSection : String
  currentSectionName : String
  inSection : Bool
deriving Repr

/-- Source `finalizePreviousSection`: push the trimmed accumulated text paired
with the section's name when a non-empty section is open. -/
def finalizePrev (st : SplitState) (pairs : List (String × String)) :
    List (String × String) :=
  if st.inSection ∧ st.currentSection ≠ "" then
    pairs ++ [(jsTrim st.currentSection, st.currentSectionName)]
  else pairs

/-- One line of the splitter's scan: `startNewSection` on a line whose
trimmed form starts with `[` (name = `trimmedLine.slice(1, -1)`), else
`handleSectionLine` appends the raw line to the open section. -/
def splitStep (acc : List (String × String) × List String × SplitState)
    (line : String) : List (String × String) × List String × SplitState :=
  let pairs := acc.1
  let sectionOrders := acc.2.1
  let st := acc.2.2
  let trimmedLine := jsTrim line
  if strStartsWith trimmedLine "[" then
    let sectionName := slice1m1 trimmedLine
    (finalizePrev st pairs, sectionOrders ++ [sectionName],
      ⟨line, sectionName, true⟩)
  else if st.inSection then
    (pairs, sectionOrders, { st with currentSection := st.currentSection ++ "\n" ++ line })
  else acc

/-- The splitter's scan over all lines, returning (text, name) pairs and
the section-name order. -/
def splitPairs (content : String) : List (String × String) × List String :=
  if jsTrim content = "" then ([], [])
  else
    let r := (splitLines content).foldl splitStep ([], [], ⟨"", "", false⟩)
    (finalizePrev r.2.2 r.1, r.2.1)

/-- Source `SectionResult`. -/
structure SectionResult where
  sections : List String
  sectionOrders : List String
deriving DecidableEq, Repr

/-- Source `splitContentBySections`. -/
def splitContentBySections (content : String) : SectionResult :=
  let r := splitPairs content
  ⟨r.1.map Prod.fst, r.2⟩

/-- Source `splitContentIntoSections` (alias used by the dialect-B path). -/
def splitContentIntoSections (content : String) : SectionResult :=
  splitContentBySections content

/-- Source `SectionWithFilter`. -/
structure SectionWithFilter where
  sections : List String
  sectionOrders : List String
  includedSections : List String
  excludedSections : List String
deriving DecidableEq, Repr

/-- Source `splitPP3ContentBySections`: classify each section by membership of
its name in the allow-list. -/
def splitPP3ContentBySections (content : String) (sectionNames : List String) :
    SectionWithFilter :=
  let r := splitPairs content
  ⟨r.1.map Prod.fst, r.2,
   (r.1.filter (fun p => sectionNames.contains p.2)).map Prod.fst,
   (r.1.filter (fun p => ¬ sectionNames.contains p.2)).map Prod.fst⟩

/-! ### Section manipulation (`src/pp3-sections/section-manipulation.ts`) -/

/-- A dialect-B edit: `SectionChange` (parameters are an insertion-ordered
map of name to full trimmed parameter line). -/
structure SectionChange where
  sectionName : String
  parameters : List (String × String)
deriving DecidableEq, Repr

/-- The regex `/^\[(.*?)\]/` of `createSectionMap`: anchored at the start,
lazily up to the first `]`, with `.` unable to cross a line terminator. -/
def sectionHeaderName (s : String) : Option String :=
  if strStartsWith s "[" then
    let body := (s.data.drop 1).takeWhile (fun c => c ≠ ']' ∧ c ≠ '\n' ∧ c ≠ '\r')
    match (s.data.drop 1).drop body.length with
    | ']' :: _ => some ⟨body⟩
    | _ => none
  else none

/-- Source `createSectionMap`: name-keyed map of section texts, `Map.set` per
section in order (a duplicate name overwrites the earlier entry's value). -/
def createSectionMap (sections : List String) : List (String × String) :=
  sections.foldl
    (fun sectionMap section' =>
      match sectionHeaderName section' with
      | some sectionName => mapSet sectionMap sectionName section'
      | none => sectionMap)
    []

/-- The regex metacharacters of JS pattern syntax; every other character
stands for itself in a pattern. -/
def regexMeta (c : Char) : Bool :=
  c = '\\' ∨ c = '^' ∨ c = '$' ∨ c = '.' ∨ c = '|' ∨ c = '?' ∨ c = '*' ∨
    c = '+' ∨ c = '(' ∨ c = ')' ∨ c = '[' ∨ c = ']' ∨ c = '{' ∨ c = '}'

/-- Parameter names over which the construction
`new RegExp("^\\s*" + name + "\\s*=.*$", "m")` and its `test` are
embedded: every character is literal regex syntax (no metacharacter) and
the name does not begin with a whitespace character, so the pattern
matches the name's text verbatim and its leading `\s*` pairs
unambiguously with the document line's indentation.  For these names the
constructor never throws and `paramRegexTest` below is its exact `test`.
Outside this class the constructor can throw a `SyntaxError` (for example
the name `(`) or the pattern's meaning changes (a metacharacter, or
backtracking into a leading-whitespace name); the embedding conservatively
treats all such names as the fallible case, and no theorem asserts
anything about them. -/
def regexSafeName (s : String) : Bool :=
  s.data.all (fun c => ¬ regexMeta c) ∧ ¬ isJsWs (s.data.headD 'a')

/-- Match of `^\s*name\s*=.*$` at one multiline-`^` position, for a
regex-safe `name`: leading whitespace, the name's text verbatim, optional
whitespace, `=` (the trailing `.*$` always succeeds). -/
def paramLineTestAt (name : String) (cs : List Char) : Bool :=
  let r1 := cs.dropWhile isJsWs
  if name.data.isPrefixOf r1 then
    match (r1.drop name.data.length).dropWhile isJsWs with
    | '=' :: _ => true
    | _ => false
  else false

/-- The suffixes following each line terminator: the extra positions at
which a multiline `^` can anchor. -/
def afterTerminators : List Char → List (List Char)
  | [] => []
  | c :: rest =>
    if c = '\r' ∨ c = '\n' then rest :: afterTerminators rest
    else afterTerminators rest

/-- Source `parameterRegex.test(line)` for a literal parameter name. -/
def paramRegexTest (name line : String) : Bool :=
  (line.data :: afterTerminators line.data).any (paramLineTestAt name)

/-- The guard of `applyParameterChanges`:
`camelcase(old.slice(i)) !== camelcase(new).slice(i)` where `i` is the
index of `=` in the new parameter line. -/
def camelDiffers (oldLine parameterLine : String) : Bool :=
  let indexOfAssignment := jsIndexOfEq parameterLine
  camelCase (jsSliceFrom oldLine indexOfAssignment)
    ≠ jsSliceFrom (camelCase parameterLine) indexOfAssignment

/-- The parameter loop of `applyParameterChanges`: `findIndex` with the
parameter regex over the original `sectionLines`, replacement in
`updatedLines` by the parameter line verbatim when the camelcase guard
sees a changed value. -/
def applyParamsGo (sectionLines : List String) (updatedLines : List String) :
    List (String × String) → Except String (List String)
  | [] => .ok updatedLines
  | (parameterName, parameterLine) :: rest =>
    if regexSafeName parameterName then
      match sectionLines.findIdx? (fun line => paramRegexTest parameterName line) with
      | some parameterLineIndex =>
        let updated :=
          if camelDiffers (updatedLines.getD parameterLineIndex "") parameterLine then
            updatedLines.set parameterLineIndex parameterLine
          else updatedLines
        applyParamsGo sectionLines updated rest
      | none => applyParamsGo sectionLines updatedLines rest
    else .error "SyntaxError: invalid regular expression"

/-- Source `applyParameterChanges`. -/
def applyParameterChanges (sectionContent : String)
    (parameters : List (String × String)) : Except String String :=
  (applyParamsGo (splitLines sectionContent) (splitLines sectionContent) parameters).map joinLines

/-- Source `applySectionChanges`: fold the changes over the section map, skipping
names the map does not hold. -/
def applySectionChanges (sectionMap : List (String × String)) :
    List SectionChange → Except String (List (String × String))
  | [] => .ok sectionMap
  | change :: rest =>
    match mapGet sectionMap change.sectionName with
    | none => applySectionChanges sectionMap rest
    | some originalSection =>
      match applyParameterChanges originalSection change.parameters with
      | .error e => .error e
      | .ok updatedSection =>
        applySectionChanges (mapSet sectionMap change.sectionName updatedSection) rest

/-- Source `reconstructContent` (dialect-B path): order lookup into the map,
missing names become `""` and are dropped by `filter(Boolean)`. -/
def reconstructContent (sectionOrders : List String)
    (sectionMap : List (String × String)) : String :=
  joinLines (((sectionOrders.map (fun sectionName => (mapGet sectionMap sectionName).getD ""))).filter
    (fun s => s ≠ ""))

/-- The header-prefix lookup of `reconstructPP3Content`: the first section
whose text starts with `[name]`. -/
def firstSectionNamed (sections : List String) (name : String) : Option String :=
  sections.find? (fun section' => strStartsWith section' ("[" ++ name ++ "]"))

/-- Source `reconstructPP3Content`: per order name, first match in edited, then
included, then excluded sections, else the empty string; join with `\n`. -/
def reconstructPP3Content (sectionOrders editedSections includedSections
    excludedSections : List String) : String :=
  joinLines (sectionOrders.map (fun sectionName =>
    (((firstSectionNamed editedSections sectionName).orElse (fun _ =>
        firstSectionNamed includedSections sectionName)).orElse (fun _ =>
        firstSectionNamed excludedSections sectionName)).getD ""))

/-- Source `applyDirectSectionChanges`. -/
def applyDirectSectionChanges (content : String)
    (sectionChanges : List SectionChange) : Except String String :=
  if sectionChanges.isEmpty then .ok content
  else
    let r := splitContentIntoSections content
    let sectionMap := createSectionMap r.sections
    match applySectionChanges sectionMap sectionChanges with
    | .error e => .error e
    | .ok m => .ok (reconstructContent r.sectionOrders m)

/-! ### Helper lemmas -/

theorem strMkData (s : String) : (⟨s.data⟩ : String) = s := rfl

theorem joinLines_singleton (x : String) : joinLines [x] = x := by
  simp only [joinLines, List.map, joinLinesData]

theorem replaceFirstData_eq_self (rep pat : List Char) :
    ∀ s : List Char, containsSubData s pat = false → replaceFirstData rep s pat = s := by
  intro s
  induction s with
  | nil =>
    intro h
    rw [containsSubData] at h
    rw [replaceFirstData]
    split_ifs at h ⊢
    · rfl
  | cons c rest ih =>
    intro h
    rw [containsSubData] at h
    rw [replaceFirstData]
    split_ifs at h ⊢ with hp
    · rw [ih h]

theorem strReplaceFirst_eq_self (s pat rep : String) (h : containsSub s pat = false) :
    strReplaceFirst s pat rep = s := by
  rw [strReplaceFirst, replaceFirstData_eq_self _ _ _ h]

theorem jsTrim_empty : jsTrim "" = "" := rfl

theorem ne_empty_of_trim_bracket {l : String}
    (h : strStartsWith (jsTrim l) "[") : l ≠ "" := by
  intro he
  subst he
  simp [jsTrim, trimChars, strStartsWith, List.isPrefixOf] at h

theorem append_newline_ne_empty (a b : String) : a ++ "\n" ++ b ≠ "" := by
  intro h
  have : (a ++ "\n" ++ b).data = ("" : String).data := by rw [h]
  simp [String.data_append] at this

theorem applyParamsGo_ok (sectionLines : List String) :
    ∀ (params : List (String × String)) (updatedLines : List String),
    (∀ p ∈ params, regexSafeName p.1) →
    ∃ r, applyParamsGo sectionLines updatedLines params = .ok r := by
  intro params
  induction params with
  | nil => intro u _; exact ⟨u, rfl⟩
  | cons p rest ih =>
    intro u h
    rw [applyParamsGo]
    rw [if_pos (h p (by simp))]
    cases hf : sectionLines.findIdx? (fun line => paramRegexTest p.1 line) with
    | none => exact ih u (fun x hx => h x (by simp [hx]))
    | some idx => exact ih _ (fun x hx => h x (by simp [hx]))

theorem applySectionChanges_ok :
    ∀ (changes : List SectionChange) (sectionMap : List (String × String)),
    (∀ ch ∈ changes, ∀ p ∈ ch.parameters, regexSafeName p.1) →
    ∃ m, applySectionChanges sectionMap changes = .ok m := by
  intro changes
  induction changes with
  | nil => intro m _; exact ⟨m, rfl⟩
  | cons ch rest ih =>
    intro m h
    rw [applySectionChanges]
    cases hg : mapGet m ch.sectionName with
    | none => exact ih m (fun x hx => h x (by simp [hx]))
    | some orig =>
      obtain ⟨u, hu⟩ := applyParamsGo_ok (splitLines orig) ch.parameters (splitLines orig)
        (fun p hp => h ch (by simp) p hp)
      have hpc : applyParameterChanges orig ch.parameters = .ok (joinLines u) := by
        simp only [applyParameterChanges, hu, Except.map]
      simp only [hpc]
      exact ih _ (fun x hx => h x (by simp [hx]))

/-- C3.  The claim as stated is refuted by `c3_counterexample`:
`applySearchReplaceBlocks` throws `"Invalid search/replace block format"`
on a block whose `search` or `replace` text is empty (and
`applyParameterChanges` can throw a `SyntaxError` for a parameter name
such as `(` that makes the constructed regex invalid).  Amended claim:
`applyDirectSectionChanges` never throws for any content string and any
`SectionChange` list whose parameter names contain no regex
metacharacter and do not begin with whitespace (the `regexSafeName`
class), and `applySearchReplaceBlocks` never throws for any content
string and any block list whose blocks all have non-empty search and
replace text. -/
theorem c3_total_on_valid_inputs :
    (∀ (content : String) (blocks : List SearchReplaceBlock),
      (∀ b ∈ blocks, b.search ≠ "" ∧ b.replace ≠ "") →
      ∃ r, applySearchReplaceBlocks content blocks = .ok r) ∧
    (∀ (content : String) (changes : List SectionChange),
      (∀ ch ∈ changes, ∀ p ∈ ch.parameters, regexSafeName p.1) →
      ∃ r, applyDirectSectionChanges content changes = .ok r) := by
  constructor
  · intro content blocks
    induction blocks generalizing content with
    | nil => intro _; exact ⟨content, rfl⟩
    | cons b rest ih =>
      intro h
      have hb := h b (by simp)
      rw [applySearchReplaceBlocks]
      rw [if_neg (by push_neg; exact hb)]
      exact ih _ (fun x hx => h x (by simp [hx]))
  · intro content changes h
    rw [applyDirectSectionChanges]
    by_cases hc : changes.isEmpty
    · rw [if_pos hc]; exact ⟨content, rfl⟩
    · rw [if_neg hc]
      obtain ⟨m, hm⟩ := applySectionChanges_ok changes
        (createSectionMap (splitContentIntoSections content).sections) h
      exact ⟨reconstructContent (splitContentIntoSections content).sectionOrders m,
        by simp only [hm]⟩

/-- C3 counterexample: the claim asserts `applySearchReplaceBlocks` never
throws, including on blocks with empty search or replace; the code throws
on exactly those blocks. -/
theorem c3_counterexample :
    applySearchReplaceBlocks "[Exposure]\nBrightness=0"
        [⟨"", "Brightness=35"⟩] =
      .error "Invalid search/replace block format" := rfl

/-- C3 witness. -/
theorem c3_witness :
    (∃ r, applySearchReplaceBlocks "[Exposure]\nBrightness=0"
        [⟨"[Exposure]\nBrightness=0", "[Exposure]\nBrightness=35"⟩] = .ok r) ∧
    (∃ r, applyDirectSectionChanges "[Exposure]\nBrightness=0"
        [⟨"Exposure", [("Brightness", "Brightness=35")]⟩] = .ok r) :=
  ⟨c3_total_on_valid_inputs.1 _ _ (by decide),
   c3_total_on_valid_inputs.2 _ _ (by decide)⟩

theorem parseFold_blocks_const :
    ∀ (lines : List String) (st : SRParseState) (blocks : List SearchReplaceBlock),
    (∀ l ∈ lines, ¬ strStartsWith l ">>>>>>> REPLACE") →
    (lines.foldl parseStep (st, blocks)).2 = blocks := by
  intro lines
  induction lines with
  | nil => intro st blocks _; rfl
  | cons l ls ih =>
    intro st blocks h
    rw [List.foldl_cons]
    have hl : ¬ strStartsWith l ">>>>>>> REPLACE" := h l (by simp)
    have hstep : parseStep (st, blocks) l = ((parseStep (st, blocks) l).1, blocks) := by
      rw [parseStep]
      split_ifs <;> simp_all
    rw [hstep]
    exact ih _ _ (fun x hx => h x (by simp [hx]))

/-- C7 counterexample: the emitted block's search text is empty, refuting
"every EditBlock returned ... has non-empty search ... text". -/
theorem c7_counterexample :
    parseSearchReplaceBlocks "<<<<<<< SEARCH\n\n=======\nContrast=25\n>>>>>>> REPLACE" =
      [⟨"", "Contrast=25"⟩] := rfl

/-- C9.  The claim as stated is refuted by `c9_counterexample`: the
splitter names a section by `trimmedLine.slice(1, -1)`, which drops the
final character whether or not it is `]`, so the section opened by
`'[Foo'` is stored under the name `'Fo'`, not `'Foo'`.  Amended claim: a
trimmed line starting with `[` still opens a section, whose recorded name
is the trimmed line minus its first and last characters, while the header
line's text itself is kept verbatim in the stored section content. -/
theorem c9_malformed_header_opens_section (line : String)
    (hopen : strStartsWith (jsTrim line) "[")
    (hnl : ¬ line.data.contains '\n') :
    splitContentBySections line = ⟨[jsTrim line], [slice1m1 (jsTrim line)]⟩ := by
  have hne : line ≠ "" := ne_empty_of_trim_bracket hopen
  have htne : jsTrim line ≠ "" := by
    intro h
    rw [h] at hopen
    simp [strStartsWith, List.isPrefixOf] at hopen
  have hsl : splitLinesData line.data = [line.data] := by
    have : ∀ cs : List Char, cs.contains '\n' = false → splitLinesData cs = [cs] := by
      intro cs
      induction cs with
      | nil => intro _; rfl
      | cons c rest ih =>
        intro h
        simp only [List.contains_cons, Bool.or_eq_false_iff] at h
        rw [splitLinesData, ih h.2]
        have : (c = '\n') = False := by
          simp only [eq_iff_iff, iff_false]
          intro hc
          subst hc
          simp [beq_iff_eq] at h
        simp [this]
    exact this _ (by simpa using hnl)
  rw [splitContentBySections, splitPairs, if_neg htne]
  simp only [splitLines, hsl, List.map, List.foldl]
  rw [splitStep]
  simp only [hopen, if_pos]
  simp only [finalizePrev]
  simp [hne]

/-- C9 counterexample: the section opened by `'[Foo'` is recorded under
the name `'Fo'`, not `'Foo'` as the claim states. -/
theorem c9_counterexample :
    splitContentBySections "[Foo\nSaturation=10" =
      ⟨["[Foo\nSaturation=10"], ["Fo"]⟩ ∧ ("Fo" : String) ≠ "Foo" :=
  ⟨rfl, by decide⟩

/-- C9 witness. -/
theorem c9_witness :
    splitContentBySections "[General" = ⟨["[General"], ["Genera"]⟩ := by
  have h := c9_malformed_header_opens_section "[General" (by decide) (by decide)
  simpa using h

theorem find?_map_upd_self (k v : String) :
    ∀ m : List (String × String), m.any (fun p => p.1 = k) →
    (m.map (fun p => if p.1 = k then (k, v) else p)).find? (fun p => p.1 = k) = some (k, v) := by
  intro m
  induction m with
  | nil => intro h; simp at h
  | cons p rest ih =>
    intro h
    by_cases hp : p.1 = k
    · rw [List.map_cons, if_pos hp, List.find?_cons_of_pos _ (by simp)]
    · rw [List.map_cons, if_neg hp, List.find?_cons_of_neg _ (by simp [hp])]
      simp only [List.any_cons, Bool.or_eq_true] at h
      rcases h with h | h
      · simp [hp] at h
      · exact ih h

theorem find?_map_upd_ne (k v k' : String) (hne : k' ≠ k) :
    ∀ m : List (String × String),
    (m.map (fun p => if p.1 = k then (k, v) else p)).find? (fun p => p.1 = k') =
      m.find? (fun p => p.1 = k') := by
  intro m
  induction m with
  | nil => rfl
  | cons p rest ih =>
    by_cases hp : p.1 = k
    · have h1 : ¬ ((k : String) = k') := fun h => hne h.symm
      have h2 : ¬ (p.1 = k') := by rw [hp]; exact h1
      rw [List.map_cons, if_pos hp, List.find?_cons_of_neg _ (by simp [h1]),
        List.find?_cons_of_neg _ (by simp [h2]), ih]
    · by_cases hp' : p.1 = k'
      · rw [List.map_cons, if_neg hp, List.find?_cons_of_pos _ (by simp [hp']),
          List.find?_cons_of_pos _ (by simp [hp'])]
      · rw [List.map_cons, if_neg hp, List.find?_cons_of_neg _ (by simp [hp']),
          List.find?_cons_of_neg _ (by simp [hp']), ih]

theorem mapGet_mapSet_self (k v : String) (m : List (String × String)) :
    mapGet (mapSet m k v) k = some v := by
  rw [mapSet]
  by_cases h : m.any (fun p => p.1 = k)
  · rw [if_pos h, mapGet, find?_map_upd_self k v m h]
    rfl
  · rw [if_neg h, mapGet, List.find?_append]
    have hm : m.find? (fun p => p.1 = k) = none := by
      rw [List.find?_eq_none]
      intro x hx
      simp only [List.any_eq_true] at h
      push_neg at h
      simpa using h x hx
    rw [hm]
    simp [List.find?_cons]

theorem mapGet_mapSet_ne (k v k' : String) (hne : k' ≠ k) (m : List (String × String)) :
    mapGet (mapSet m k v) k' = mapGet m k' := by
  rw [mapSet]
  by_cases h : m.any (fun p => p.1 = k)
  · rw [if_pos h, mapGet, find?_map_upd_ne k v k' hne m]
    rfl
  · rw [if_neg h, mapGet, List.find?_append]
    have h1 : ¬ ((k : String) = k') := fun hh => hne hh.symm
    simp [List.find?_cons, h1, mapGet]

theorem createSectionMapAux (name : String) :
    ∀ (sections : List String) (m : List (String × String)),
    mapGet (sections.foldl (fun sectionMap section' =>
        match sectionHeaderName section' with
        | some sectionName => mapSet sectionMap sectionName section'
        | none => sectionMap) m) name =
      ((sections.filter (fun s => sectionHeaderName s = some name)).getLast?).or
        (mapGet m name) := by
  intro sections
  induction sections with
  | nil => intro m; simp
  | cons s rest ih =>
    intro m
    rw [List.foldl_cons, ih, List.filter_cons]
    by_cases hs : sectionHeaderName s = some name
    · rw [if_pos (by simpa using hs), hs]
      rw [mapGet_mapSet_self]
      cases hrest : rest.filter (fun s => sectionHeaderName s = some name) with
      | nil => simp [hrest]
      | cons y ys =>
        rw [List.getLast?_cons_cons]
        have hgl : (y :: ys).getLast? = some ((y :: ys).getLast (by simp)) := by
          rw [List.getLast?_eq_getLast]
        rw [hgl]
        simp
    · rw [if_neg (by simpa using hs)]
      cases hh : sectionHeaderName s with
      | none => rfl
      | some n =>
        have hn : name ≠ n := by
          intro he
          rw [hh, he] at hs
          exact hs rfl
        simp only [mapGet_mapSet_ne n s name hn]

/-- C5.  The claim as stated is refuted by `c5_counterexample`: the
name-keyed section map of the direct-changes path is built with
`Map.set`, so a repeated section name resolves to the *last* occurrence
there, while the header-prefix lookup used at reconstruction returns the
first occurrence.  Amended claim: when a section name repeats, the
header-prefix lookup of `reconstructPP3Content` returns the first section
bearing that name, and the map built by `createSectionMap` retains the
last section bearing that name. -/
theorem c5_first_vs_last_occurrence :
    (∀ (sections : List String) (name : String),
      mapGet (createSectionMap sections) name =
        (sections.filter (fun s => sectionHeaderName s = some name)).getLast?) ∧
    (∀ (name x : String) (pre post : List String),
      strStartsWith x ("[" ++ name ++ "]") →
      (∀ y ∈ pre, ¬ strStartsWith y ("[" ++ name ++ "]")) →
      firstSectionNamed (pre ++ x :: post) name = some x ∧
      reconstructPP3Content [name] (pre ++ x :: post) [] [] = x) := by
  constructor
  · intro sections name
    rw [createSectionMap, createSectionMapAux]
    simp [mapGet]
  · intro name x pre post hx hpre
    have hfind : firstSectionNamed (pre ++ x :: post) name = some x := by
      rw [firstSectionNamed, List.find?_append]
      have h1 : pre.find? (fun s => strStartsWith s ("[" ++ name ++ "]")) = none := by
        rw [List.find?_eq_none]
        intro y hy
        simpa using hpre y hy
      rw [h1, List.find?_cons]
      simp [hx]
    refine ⟨hfind, ?_⟩
    rw [reconstructPP3Content]
    simp only [List.map, hfind, Option.orElse, Option.getD]
    exact joinLines_singleton x

/-- C5 counterexample: with a duplicated `[ColorToning]` section,
`createSectionMap`'s map resolves the name to the *second* occurrence,
refuting "first occurrence wins" for the name-keyed map. -/
theorem c5_counterexample :
    mapGet (createSectionMap ["[ColorToning]\nRedlow=0", "[ColorToning]\nRedlow=25"])
        "ColorToning" = some "[ColorToning]\nRedlow=25" ∧
    ("[ColorToning]\nRedlow=25" : String) ≠ "[ColorToning]\nRedlow=0" :=
  ⟨rfl, by decide⟩

/-- C5 witness. -/
theorem c5_witness :
    mapGet (createSectionMap ["[General]\nRank=0", "[General]\nRank=5"]) "General" =
      (["[General]\nRank=0", "[General]\nRank=5"].filter
        (fun s => sectionHeaderName s = some "General")).getLast? ∧
    firstSectionNamed (["[Version]\nAppVersion=5.8"] ++ "[General]\nRank=0" :: ["[General]\nRank=5"]) "General" =
      some "[General]\nRank=0" :=
  ⟨c5_first_vs_last_occurrence.1 _ _,
   (c5_first_vs_last_occurrence.2 "General" "[General]\nRank=0"
      ["[Version]\nAppVersion=5.8"] ["[General]\nRank=5"] (by decide) (by decide)).1⟩

/-- C6.  The claim's statement about `applyFuzzySearchReplace` holds, but
its statement about `applySearchReplaceBlocks` is refuted by
`c6_counterexample`: a block with an absent section header but empty
replace text makes `applySearchReplaceBlocks` throw instead of returning
the document unchanged.  Amended claim: when the first header line of the
search text (the line the engine selects) does not occur trimmed-equal on
any line of the document, `applyFuzzySearchReplace` returns the document
unchanged; and `applySearchReplaceBlocks` on that single block — provided
search and replace are non-empty — returns the document unchanged when
additionally the trimmed search text is not a substring of the
document. -/
theorem c6_missing_section_noop (content search replace hl : String)
    (hfind : (splitLines (jsTrim search)).find?
        (fun line => strStartsWith (jsTrim line) "[") = some hl)
    (habsent : ∀ l ∈ splitLines content, jsTrim l ≠ jsTrim hl) :
    applyFuzzySearchReplace content search replace = content ∧
    (search ≠ "" → replace ≠ "" → containsSub content (jsTrim search) = false →
      applySearchReplaceBlocks content [⟨search, replace⟩] = .ok content) := by
  have hboundaries : findSectionBoundaries (splitLines content) (jsTrim hl) = none := by
    rw [findSectionBoundaries]
    have hidx : (splitLines content).findIdx? (fun line => jsTrim line = jsTrim hl) = none := by
      rw [List.findIdx?_eq_none_iff]
      intro x hx
      simpa using habsent x hx
    rw [hidx]
  have hfuzzy : applyFuzzySearchReplace content search replace = content := by
    rw [applyFuzzySearchReplace]
    simp only [hfind, hboundaries]
  refine ⟨hfuzzy, fun hs hr hc => ?_⟩
  rw [applySearchReplaceBlocks]
  rw [if_neg (by push_neg; exact ⟨hs, hr⟩)]
  simp only [hfuzzy, if_pos rfl]
  rw [strReplaceFirst_eq_self _ _ _ hc]
  rfl

/-- C6 counterexample: the search block targets the absent section
`[NonExistent]` and its trimmed text is not a substring of the document,
yet `applySearchReplaceBlocks` throws (empty replace) instead of
returning the document unchanged as the claim demands. -/
theorem c6_counterexample :
    applySearchReplaceBlocks "[Exposure]\nContrast=0"
        [⟨"[NonExistent]\nContrast=0", ""⟩] =
      .error "Invalid search/replace block format" ∧
    containsSub "[Exposure]\nContrast=0" (jsTrim "[NonExistent]\nContrast=0") = false :=
  ⟨rfl, by decide⟩

/-- C6 witness. -/
theorem c6_witness :
    applyFuzzySearchReplace "[Exposure]\nContrast=0" "[NonExistent]\nContrast=5" "[NonExistent]\nContrast=7" =
      "[Exposure]\nContrast=0" ∧
    applySearchReplaceBlocks "[Exposure]\nContrast=0"
        [⟨"[NonExistent]\nContrast=5", "[NonExistent]\nContrast=7"⟩] =
      .ok "[Exposure]\nContrast=0" := by
  have h := c6_missing_section_noop "[Exposure]\nContrast=0" "[NonExistent]\nContrast=5"
    "[NonExistent]\nContrast=7" "[NonExistent]" (by decide) (by decide)
  exact ⟨h.1, h.2 (by decide) (by decide) (by decide)⟩

/-- C8.  The claim's parenthetical assertion "the literal search text not
occurring verbatim in the document" does not hold for every document; the
literal fallback can fire, refuting the unconditional "result equals the
input unchanged" (`c8_counterexample`).  Amended claim: with a located
section and 2 search parameters against 1 replace parameter, the engine
falls back to literal substring replacement of the full trimmed search
text with the full trimmed replace text; when the trimmed search text
does not occur as a substring of the document, the result equals the
input unchanged. -/
theorem c8_count_mismatch_fallback (content search replace hl : String)
    (b : Nat × Nat)
    (hfind : (splitLines (jsTrim search)).find?
        (fun line => strStartsWith (jsTrim line) "[") = some hl)
    (hboundaries : findSectionBoundaries (splitLines content) (jsTrim hl) = some b)
    (hs2 : (extractParameters (splitLines (jsTrim search))).length = 2)
    (hr1 : (extractParameters (splitLines (jsTrim replace))).length = 1) :
    applyFuzzySearchReplace content search replace =
      strReplaceFirst content (jsTrim search) (jsTrim replace) ∧
    (containsSub content (jsTrim search) = false →
      applyFuzzySearchReplace content search replace = content) := by
  have hmain : applyFuzzySearchReplace content search replace =
      strReplaceFirst content (jsTrim search) (jsTrim replace) := by
    rw [applyFuzzySearchReplace]
    simp only [hfind, hboundaries, hs2, hr1]
    rw [if_pos (by omega)]
  exact ⟨hmain, fun hc => by rw [hmain, strReplaceFirst_eq_self _ _ _ hc]⟩

/-- C8 counterexample: the search text (2 parameters) happens to occur
verbatim in the document, so the literal fallback rewrites it with the
1-parameter replace text — the result is NOT the unchanged input the
claim demands. -/
theorem c8_counterexample :
    applyFuzzySearchReplace "[ColorToning]\nRedlow=0\nGreenlow=0"
        "[ColorToning]\nRedlow=0\nGreenlow=0" "[ColorToning]\nRedlow=25" =
      "[ColorToning]\nRedlow=25" ∧
    ("[ColorToning]\nRedlow=25" : String) ≠ "[ColorToning]\nRedlow=0\nGreenlow=0" :=
  ⟨rfl, by decide⟩

/-- C8 witness. -/
theorem c8_witness :
    applyFuzzySearchReplace "[ColorToning]\nRedlow=0\nGreenlow=0"
        "[ColorToning]\nRedlow=5\nGreenlow=5" "[ColorToning]\nRedlow=25" =
      "[ColorToning]\nRedlow=0\nGreenlow=0" :=
  (c8_count_mismatch_fallback "[ColorToning]\nRedlow=0\nGreenlow=0"
    "[ColorToning]\nRedlow=5\nGreenlow=5" "[ColorToning]\nRedlow=25"
    "[ColorToning]" (0, 3) (by decide) (by decide) (by decide) (by decide)).2 (by decide)

theorem applyReplGo_getElem? (a b : Nat) (m : List (String × String)) :
    ∀ (ls : List String) (i0 i : Nat),
    (applyReplGo a b m i0 ls)[i]? =
      (ls[i]?).map (fun l => if a + 1 ≤ i0 + i ∧ i0 + i < b then replaceLine m l else l) := by
  intro ls
  induction ls with
  | nil => intro i0 i; rfl
  | cons l ls ih =>
    intro i0 i
    cases i with
    | zero =>
      rw [applyReplGo]
      simp
    | succ j =>
      rw [applyReplGo]
      simp only [List.getElem?_cons_succ]
      rw [ih (i0 + 1) j]
      have harith : i0 + 1 + j = i0 + (j + 1) := by omega
      rw [harith]

/-- C2.  Confirmed: a document line matched inside the target section is
rewritten to its own leading whitespace plus the mapped replacement
value; in particular the two-space indent of `'  K=0'` survives the
unindented replacement `'K=5'`. -/
theorem c2_indentation_preserved :
    (∀ (contentLines : List String) (startIndex stopIndex i : Nat)
       (replaceMap : List (String × String)) (line v : String),
      contentLines[i]? = some line →
      startIndex + 1 ≤ i → i < stopIndex →
      jsTrim line ≠ "" →
      mapGet replaceMap (paramKey (jsTrim line)) = some v →
      (applyReplacementsInSection contentLines startIndex stopIndex replaceMap)[i]? =
        some (leadingWs line ++ v)) ∧
    applyFuzzySearchReplace "[S]\n  K=0" "[S]\nK=0" "[S]\nK=5" = "[S]\n  K=5" := by
  constructor
  · intro contentLines startIndex stopIndex i replaceMap line v hline hlo hhi htrim hmap
    rw [applyReplacementsInSection, applyReplGo_getElem?, hline]
    simp only [Option.map]
    rw [if_pos (by omega)]
    simp only [replaceLine]
    rw [if_neg htrim, hmap]
  · rfl

/-- C2 witness. -/
theorem c2_witness :
    (applyReplacementsInSection ["[S]", "  K=0"] 0 2 [("K", "K=5")])[1]? =
      some (leadingWs "  K=0" ++ "K=5") :=
  c2_indentation_preserved.1 ["[S]", "  K=0"] 0 2 1 [("K", "K=5")] "  K=0" "K=5"
    (by decide) (by decide) (by decide) (by decide) (by decide)

theorem applyParamsGo_changed_lines :
    ∀ (params : List (String × String)) (sectionLines updatedLines result : List String),
    applyParamsGo sectionLines updatedLines params = .ok result →
    ∀ (i : Nat) (l : String), result[i]? = some l →
    updatedLines[i]? = some l ∨ ∃ p ∈ params, l = p.2 := by
  intro params
  induction params with
  | nil =>
    intro sectionLines updatedLines result hok i l hl
    rw [applyParamsGo] at hok
    cases hok
    exact Or.inl hl
  | cons p rest ih =>
    intro sectionLines updatedLines result hok i l hl
    rw [applyParamsGo] at hok
    by_cases hname : regexSafeName p.1
    · rw [if_pos hname] at hok
      cases hfi : sectionLines.findIdx? (fun line => paramRegexTest p.1 line) with
      | none =>
        rw [hfi] at hok
        rcases ih _ _ _ hok i l hl with h | ⟨q, hq, hql⟩
        · exact Or.inl h
        · exact Or.inr ⟨q, by simp [hq], hql⟩
      | some idx =>
        rw [hfi] at hok
        cases hdif : camelDiffers (updatedLines.getD idx "") p.2 with
        | true =>
          simp only [hdif, if_true] at hok
          rcases ih _ _ _ hok i l hl with h | ⟨q, hq, hql⟩
          · rw [List.getElem?_set] at h
            by_cases hij : idx = i
            · rw [if_pos hij] at h
              by_cases hlen : idx < updatedLines.length
              · rw [if_pos hlen] at h
                cases h
                exact Or.inr ⟨p, by simp, rfl⟩
              · rw [if_neg hlen] at h
                cases h
            · rw [if_neg hij] at h
              exact Or.inl h
          · exact Or.inr ⟨q, by simp [hq], hql⟩
        | false =>
          simp only [hdif, if_false] at hok
          rcases ih _ _ _ hok i l hl with h | ⟨q, hq, hql⟩
          · exact Or.inl h
          · exact Or.inr ⟨q, by simp [hq], hql⟩
    · rw [if_neg hname] at hok
      cases hok

/-- C10.  Confirmed: when the dialect-B applier replaces a matched
parameter line, the new document line is the stored (trimmed) parameter
line verbatim — any leading whitespace of the original document line is
discarded — unlike the dialect-A fuzzy engine, which re-applies the
original indentation.  First conjunct: any line of the result differing
from the input is one of the change's parameter lines verbatim.  Second
and third conjuncts: the two dialects on the same indented input. -/
theorem c10_direct_changes_discard_indentation :
    (∀ (sectionLines updatedLines result : List String)
       (params : List (String × String)) (i : Nat) (l : String),
      applyParamsGo sectionLines updatedLines params = .ok result →
      result[i]? = some l →
      updatedLines[i]? = some l ∨ ∃ p ∈ params, l = p.2) ∧
    (∀ (sectionContent : String) (params : List (String × String)),
      applyParameterChanges sectionContent params =
        (applyParamsGo (splitLines sectionContent) (splitLines sectionContent) params).map joinLines) ∧
    applyDirectSectionChanges "[Exposure]\n  Brightness=0"
        [⟨"Exposure", [("Brightness", "Brightness=35")]⟩] =
      .ok "[Exposure]\nBrightness=35" ∧
    applyFuzzySearchReplace "[Exposure]\n  Brightness=0"
        "[Exposure]\nBrightness=0" "[Exposure]\nBrightness=35" =
      "[Exposure]\n  Brightness=35" :=
  ⟨fun sectionLines updatedLines result params i l hok hl =>
      applyParamsGo_changed_lines params sectionLines updatedLines result hok i l hl,
   fun _ _ => rfl, rfl, rfl⟩

/-- C10 witness. -/
theorem c10_witness :
    ["[Exposure]", "  Brightness=0"][1]? = some "Brightness=35" ∨
      ∃ p ∈ [("Brightness", "Brightness=35")], ("Brightness=35" : String) = p.2 :=
  c10_direct_changes_discard_indentation.1
    ["[Exposure]", "  Brightness=0"] ["[Exposure]", "  Brightness=0"]
    ["[Exposure]", "Brightness=35"] [("Brightness", "Brightness=35")] 1 "Brightness=35"
    rfl rfl

theorem applyReplGo_cons (a b : Nat) (m : List (String × String)) (i : Nat)
    (l : String) (ls : List String) :
    applyReplGo a b m i (l :: ls) =
      (if a + 1 ≤ i ∧ i < b then replaceLine m l else l) :: applyReplGo a b m (i + 1) ls := rfl

theorem applyReplGo_append (a b : Nat) (m : List (String × String)) :
    ∀ (xs ys : List String) (i : Nat),
    applyReplGo a b m i (xs ++ ys) = applyReplGo a b m i xs ++ applyReplGo a b m (i + xs.length) ys := by
  intro xs
  induction xs with
  | nil => intro ys i; simp [applyReplGo]
  | cons x xs ih =>
    intro ys i
    rw [List.cons_append, applyReplGo_cons, applyReplGo_cons, ih]
    simp only [List.cons_append, List.length_cons]
    have : i + 1 + xs.length = i + (xs.length + 1) := by omega
    rw [this]

theorem applyReplGo_id_low (a b : Nat) (m : List (String × String)) :
    ∀ (xs : List String) (i : Nat), i + xs.length ≤ a + 1 →
    applyReplGo a b m i xs = xs := by
  intro xs
  induction xs with
  | nil => intro i _; rfl
  | cons x xs ih =>
    intro i h
    simp only [List.length_cons] at h
    rw [applyReplGo_cons, if_neg (by omega), ih (i + 1) (by omega)]

theorem applyReplGo_id_high (a b : Nat) (m : List (String × String)) :
    ∀ (xs : List String) (i : Nat), b ≤ i →
    applyReplGo a b m i xs = xs := by
  intro xs
  induction xs with
  | nil => intro i _; rfl
  | cons x xs ih =>
    intro i h
    rw [applyReplGo_cons, if_neg (by omega), ih (i + 1) (by omega)]

/-- C1.  Confirmed: with section `[S]` holding parameter lines `A,B,C,D`
and an edit block whose search lists the header plus the `B` and `D`
lines and whose replace lists the header plus new `B` and `D` values
(equal parameter counts), the fuzzy engine rewrites exactly the `B` and
`D` lines (to their own indentation plus the new text) and leaves the
header, the `A` and `C` lines, and every line outside the section
byte-identical. -/
theorem c1_line_skipping
    (content search replace hl : String)
    (preLines postLines : List String)
    (hdr lA lB lC lD sB sD rB rD : String)
    (hfind : (splitLines (jsTrim search)).find?
        (fun line => strStartsWith (jsTrim line) "[") = some hl)
    (hcontent : splitLines content = preLines ++ hdr :: lA :: lB :: lC :: lD :: postLines)
    (hpre : ∀ l ∈ preLines, jsTrim l ≠ jsTrim hl)
    (hhdr : jsTrim hdr = jsTrim hl)
    (hpost : postLines = [] ∨ ∃ p ps, postLines = p :: ps ∧ isWFHeader (jsTrim p))
    (hnotA : ¬ isWFHeader (jsTrim lA)) (hnotB : ¬ isWFHeader (jsTrim lB))
    (hnotC : ¬ isWFHeader (jsTrim lC)) (hnotD : ¬ isWFHeader (jsTrim lD))
    (hsparams : extractParameters (splitLines (jsTrim search)) = [sB, sD])
    (hrparams : extractParameters (splitLines (jsTrim replace)) = [rB, rD])
    (hkB : paramKey sB = paramKey (jsTrim lB))
    (hkD : paramKey sD = paramKey (jsTrim lD))
    (hkBD : paramKey sB ≠ paramKey sD)
    (hBne : jsTrim lB ≠ "") (hDne : jsTrim lD ≠ "")
    (hA : jsTrim lA = "" ∨
      (paramKey (jsTrim lA) ≠ paramKey sB ∧ paramKey (jsTrim lA) ≠ paramKey sD))
    (hC : jsTrim lC = "" ∨
      (paramKey (jsTrim lC) ≠ paramKey sB ∧ paramKey (jsTrim lC) ≠ paramKey sD)) :
    applyFuzzySearchReplace content search replace =
      joinLines (preLines ++ hdr :: lA :: (leadingWs lB ++ rB) :: lC ::
        (leadingWs lD ++ rD) :: postLines) := by
  have hstart : (splitLines content).findIdx?
      (fun line => jsTrim line = jsTrim hl) = some preLines.length := by
    rw [hcontent, List.findIdx?_append]
    have h1 : preLines.findIdx? (fun line => jsTrim line = jsTrim hl) = none := by
      rw [List.findIdx?_eq_none_iff]
      intro x hx
      simpa using hpre x hx
    rw [h1, List.findIdx?_cons]
    rw [if_pos (by simpa using hhdr)]
    simp
  have hdrop : (splitLines content).drop (preLines.length + 1) =
      lA :: lB :: lC :: lD :: postLines := by
    rw [hcontent]
    have : preLines ++ hdr :: lA :: lB :: lC :: lD :: postLines =
        (preLines ++ [hdr]) ++ (lA :: lB :: lC :: lD :: postLines) := by simp
    rw [this]
    have hlen : preLines.length + 1 = (preLines ++ [hdr]).length := by simp
    rw [hlen, List.drop_left]
  have hend : ((splitLines content).drop (preLines.length + 1)).findIdx?
        (fun line => isWFHeader (jsTrim line)) =
      (if postLines = [] then none else some 4) := by
    rw [hdrop]
    rcases hpost with hp | ⟨p, ps, hp, hwf⟩
    · subst hp
      rw [if_pos rfl, List.findIdx?_eq_none_iff]
      intro x hx
      simp only [List.mem_cons, List.not_mem_nil, or_false] at hx
      rcases hx with h | h | h | h <;> (subst h; simp_all)
    · have hne : postLines ≠ [] := by rw [hp]; simp
      rw [if_neg hne, hp]
      repeat rw [List.findIdx?_cons]
      rw [if_neg (by simpa using hnotA), if_neg (by simpa using hnotB),
        if_neg (by simpa using hnotC), if_neg (by simpa using hnotD),
        if_pos (by simpa using hwf)]
  have hlen5 : (splitLines content).length = preLines.length + 5 + postLines.length := by
    rw [hcontent]
    simp
    omega
  have hboundaries : findSectionBoundaries (splitLines content) (jsTrim hl) =
      some (preLines.length, preLines.length + 5) := by
    rw [findSectionBoundaries, hstart]
    simp only [hend]
    rcases Classical.em (postLines = []) with hp | hp
    · rw [if_pos hp]
      simp only [hlen5, hp, List.length_nil]
    · rw [if_neg hp]
  have hmapeq : createReplacementMap [sB, sD] [rB, rD] =
      [(paramKey sB, rB), (paramKey sD, rD)] := by
    simp [createReplacementMap, mapSet, List.foldl, hkBD]
  have hgetB : mapGet [(paramKey sB, rB), (paramKey sD, rD)] (paramKey (jsTrim lB)) =
      some rB := by
    rw [mapGet, List.find?_cons_of_pos _ (by simp [hkB])]
    rfl
  have hgetD : mapGet [(paramKey sB, rB), (paramKey sD, rD)] (paramKey (jsTrim lD)) =
      some rD := by
    have hne : ¬ (paramKey sB = paramKey (jsTrim lD)) := by
      rw [← hkD]
      exact hkBD
    rw [mapGet, List.find?_cons_of_neg _ (by simp [hne]),
      List.find?_cons_of_pos _ (by simp [hkD])]
    rfl
  have hgetNone : ∀ l : String, jsTrim l = "" ∨
      (paramKey (jsTrim l) ≠ paramKey sB ∧ paramKey (jsTrim l) ≠ paramKey sD) →
      replaceLine [(paramKey sB, rB), (paramKey sD, rD)] l = l := by
    intro l hcase
    rcases hcase with h | ⟨h1, h2⟩
    · simp [replaceLine, h]
    · have hn1 : ¬ (paramKey sB = paramKey (jsTrim l)) := fun hh => h1 hh.symm
      have hn2 : ¬ (paramKey sD = paramKey (jsTrim l)) := fun hh => h2 hh.symm
      simp only [replaceLine]
      rw [mapGet, List.find?_cons_of_neg _ (by simp [hn1]),
        List.find?_cons_of_neg _ (by simp [hn2])]
      simp
  have hreplB : replaceLine [(paramKey sB, rB), (paramKey sD, rD)] lB =
      leadingWs lB ++ rB := by
    simp only [replaceLine]
    rw [if_neg hBne, hgetB]
  have hreplD : replaceLine [(paramKey sB, rB), (paramKey sD, rD)] lD =
      leadingWs lD ++ rD := by
    simp only [replaceLine]
    rw [if_neg hDne, hgetD]
  rw [applyFuzzySearchReplace]
  simp only [hfind, hboundaries, hsparams, hrparams, List.length_cons, List.length_nil]
  rw [if_neg (by omega)]
  rw [hmapeq]
  rw [applyReplacementsInSection, hcontent, applyReplGo_append]
  rw [applyReplGo_id_low _ _ _ _ _ (by omega)]
  simp only [Nat.zero_add]
  rw [applyReplGo_cons, if_neg (by omega)]
  rw [applyReplGo_cons, if_pos (by omega)]
  rw [applyReplGo_cons, if_pos (by omega)]
  rw [applyReplGo_cons, if_pos (by omega)]
  rw [applyReplGo_cons, if_pos (by omega)]
  rw [applyReplGo_id_high _ _ _ _ _ (by omega)]
  rw [hgetNone lA hA, hgetNone lC hC, hreplB, hreplD]

/-- C1 witness. -/
theorem c1_witness :
    applyFuzzySearchReplace
        "[Version]\nAppVersion=5.8\n[ColorToning]\nEnabled=false\nRedlow=0\nSatlow=0\nBalance=0\n[Exposure]\nClip=0.02"
        "[ColorToning]\nRedlow=0\nBalance=0" "[ColorToning]\nRedlow=25\nBalance=10" =
      joinLines (["[Version]", "AppVersion=5.8"] ++ "[ColorToning]" :: "Enabled=false" ::
        (leadingWs "Redlow=0" ++ "Redlow=25") :: "Satlow=0" ::
        (leadingWs "Balance=0" ++ "Balance=10") :: ["[Exposure]", "Clip=0.02"]) :=
  c1_line_skipping
    "[Version]\nAppVersion=5.8\n[ColorToning]\nEnabled=false\nRedlow=0\nSatlow=0\nBalance=0\n[Exposure]\nClip=0.02"
    "[ColorToning]\nRedlow=0\nBalance=0" "[ColorToning]\nRedlow=25\nBalance=10"
    "[ColorToning]" ["[Version]", "AppVersion=5.8"] ["[Exposure]", "Clip=0.02"]
    "[ColorToning]" "Enabled=false" "Redlow=0" "Satlow=0" "Balance=0"
    "Redlow=0" "Balance=0" "Redlow=25" "Balance=10"
    (by decide) (by decide) (by decide) (by decide)
    (Or.inr ⟨"[Exposure]", ["Clip=0.02"], by decide, by decide⟩)
    (by decide) (by decide) (by decide) (by decide)
    (by decide) (by decide) (by decide) (by decide) (by decide)
    (by decide) (by decide)
    (Or.inr ⟨by decide, by decide⟩) (Or.inr ⟨by decide, by decide⟩)

theorem finalizePrev_snd (st : SplitState) (pairs : List (String × String))
    (orders : List String)
    (h1 : pairs.map Prod.snd ++ (if st.inSection then [st.currentSectionName] else []) = orders)
    (h2 : st.inSection → st.currentSection ≠ "") :
    (finalizePrev st pairs).map Prod.snd = orders := by
  rw [finalizePrev]
  by_cases hin : st.inSection
  · rw [if_pos ⟨hin, h2 hin⟩, List.map_append]
    simpa [hin] using h1
  · rw [if_neg (by simp [hin])]
    simpa [hin] using h1

theorem splitFold_snd (lines : List String) :
    ∀ (pairs : List (String × String)) (orders : List String) (st : SplitState),
    pairs.map Prod.snd ++ (if st.inSection then [st.currentSectionName] else []) = orders →
    (st.inSection → st.currentSection ≠ "") →
    (finalizePrev ((lines.foldl splitStep (pairs, orders, st)).2.2)
        ((lines.foldl splitStep (pairs, orders, st)).1)).map Prod.snd =
      (lines.foldl splitStep (pairs, orders, st)).2.1 := by
  induction lines with
  | nil =>
    intro pairs orders st h1 h2
    exact finalizePrev_snd st pairs orders h1 h2
  | cons l ls ih =>
    intro pairs orders st h1 h2
    rw [List.foldl_cons]
    by_cases hopen : strStartsWith (jsTrim l) "["
    · have hstep : splitStep (pairs, orders, st) l =
          (finalizePrev st pairs, orders ++ [slice1m1 (jsTrim l)],
            ⟨l, slice1m1 (jsTrim l), true⟩) := by
        simp [splitStep, hopen]
      rw [hstep]
      apply ih
      · have hfp := finalizePrev_snd st pairs orders h1 h2
        simp [hfp]
      · intro _
        exact ne_empty_of_trim_bracket hopen
    · by_cases hin : st.inSection
      · have hstep : splitStep (pairs, orders, st) l =
            (pairs, orders, { st with currentSection := st.currentSection ++ "\n" ++ l }) := by
          simp [splitStep, hopen, hin]
        rw [hstep]
        apply ih
        · simpa [hin] using h1
        · intro _
          exact append_newline_ne_empty _ _
      · have hstep : splitStep (pairs, orders, st) l = (pairs, orders, st) := by
          simp [splitStep, hopen, hin]
        rw [hstep]
        exact ih pairs orders st h1 h2

theorem splitPairs_snd (content : String) :
    (splitPairs content).1.map Prod.snd = (splitPairs content).2 := by
  rw [splitPairs]
  by_cases h : jsTrim content = ""
  · rw [if_pos h]
    rfl
  · rw [if_neg h]
    exact splitFold_snd (splitLines content) [] [] ⟨"", "", false⟩ (by simp) (by simp)

theorem bracket_unique_data :
    ∀ (xs ys t1 t2 : List Char),
    xs ++ ']' :: t1 = ys ++ ']' :: t2 → ']' ∉ xs → ']' ∉ ys → xs = ys := by
  intro xs
  induction xs with
  | nil =>
    intro ys t1 t2 h hx hy
    cases ys with
    | nil => rfl
    | cons y ys' =>
      simp only [List.nil_append, List.cons_append, List.cons.injEq] at h
      exact absurd (h.1 ▸ List.mem_cons_self y ys') (fun hm => hy (h.1 ▸ hm))
  | cons x xs' ih =>
    intro ys t1 t2 h hx hy
    cases ys with
    | nil =>
      simp only [List.cons_append, List.nil_append, List.cons.injEq] at h
      exact absurd (h.1 ▸ List.mem_cons_self x xs') (fun hm => hx (h.1 ▸ hm))
    | cons y ys' =>
      simp only [List.cons_append, List.cons.injEq] at h
      rw [h.1, ih ys' t1 t2 h.2 (fun hm => hx (List.mem_cons_of_mem x hm))
        (fun hm => hy (List.mem_cons_of_mem y hm))]

theorem bracketName_unique {a b s : String}
    (ha : strStartsWith s ("[" ++ a ++ "]"))
    (hb : strStartsWith s ("[" ++ b ++ "]"))
    (hna : ']' ∉ a.data) (hnb : ']' ∉ b.data) : a = b := by
  rw [strStartsWith, List.isPrefixOf_iff_prefix] at ha hb
  obtain ⟨ta, hta⟩ := ha
  obtain ⟨tb, htb⟩ := hb
  rw [← htb] at hta
  have hdata : ("[" ++ a ++ "]").data = '[' :: (a.data ++ [']']) := by
    simp [String.data_append]
  have hdatb : ("[" ++ b ++ "]").data = '[' :: (b.data ++ [']']) := by
    simp [String.data_append]
  rw [hdata, hdatb] at hta
  simp only [List.cons_append, List.append_assoc, List.cons.injEq] at hta
  have := bracket_unique_data a.data b.data ta tb (by simpa using hta.2) hna hnb
  calc a = ⟨a.data⟩ := (strMkData a).symm
    _ = ⟨b.data⟩ := by rw [this]
    _ = b := strMkData b

theorem find?_pairs_none (n : String) (q : String × String → Bool) :
    ∀ (pairs : List (String × String)),
    (∀ p ∈ pairs, strStartsWith p.1 ("[" ++ p.2 ++ "]")) →
    (∀ p ∈ pairs, ']' ∉ p.2.data) →
    ']' ∉ n.data →
    n ∉ pairs.map Prod.snd →
    ((pairs.filter q).map Prod.fst).find?
      (fun s => strStartsWith s ("[" ++ n ++ "]")) = none := by
  intro pairs hwf hbr hn hmem
  rw [List.find?_eq_none]
  intro x hx
  simp only [List.mem_map, List.mem_filter] at hx
  obtain ⟨p, ⟨hp, _⟩, hpx⟩ := hx
  intro htest
  have heq : n = p.2 := bracketName_unique (hpx ▸ htest) (hwf p hp) hn (hbr p hp)
  exact hmem (heq ▸ List.mem_map_of_mem Prod.snd hp)

theorem find?_pairs_filter (n sec : String) (q : String × String → Bool) :
    ∀ (pairs : List (String × String)),
    (pairs.map Prod.snd).Nodup →
    (∀ p ∈ pairs, strStartsWith p.1 ("[" ++ p.2 ++ "]")) →
    (∀ p ∈ pairs, ']' ∉ p.2.data) →
    ']' ∉ n.data →
    (sec, n) ∈ pairs →
    ((pairs.filter q).map Prod.fst).find?
      (fun s => strStartsWith s ("[" ++ n ++ "]")) =
      (if q (sec, n) then some sec else none) := by
  intro pairs
  induction pairs with
  | nil => intro _ _ _ _ hmem; simp at hmem
  | cons p rest ih =>
    intro hnd hwf hbr hn hmem
    have hnd2 : (p.2 :: rest.map Prod.snd).Nodup := by simpa using hnd
    have hnd' : (rest.map Prod.snd).Nodup := (List.nodup_cons.mp hnd2).2
    have hhead : p.2 ∉ rest.map Prod.snd := (List.nodup_cons.mp hnd2).1
    rcases List.mem_cons.mp hmem with hp | hp
    · subst hp
      have htest : strStartsWith sec ("[" ++ n ++ "]") := by
        simpa using hwf (sec, n) (by simp)
      rw [List.filter_cons]
      by_cases hq : q (sec, n)
      · rw [if_pos (by simpa using hq), List.map_cons,
          List.find?_cons_of_pos _ (by simpa using htest), if_pos hq]
      · rw [if_neg (by simpa using hq), if_neg hq]
        exact find?_pairs_none n q rest (fun x hx => hwf x (by simp [hx]))
          (fun x hx => hbr x (by simp [hx])) hn (by simpa using hhead)
    · have hne : p.2 ≠ n := by
        intro he
        exact hhead (he ▸ List.mem_map_of_mem Prod.snd hp)
      have htest : ¬ strStartsWith p.1 ("[" ++ n ++ "]") := by
        intro ht
        exact hne (bracketName_unique (hwf p (by simp)) ht (hbr p (by simp)) hn)
      rw [List.filter_cons]
      have hrec := ih hnd' (fun x hx => hwf x (by simp [hx]))
        (fun x hx => hbr x (by simp [hx])) hn hp
      by_cases hq : q p
      · rw [if_pos (by simpa using hq), List.map_cons,
          List.find?_cons_of_neg _ (by simpa using htest), hrec]
      · rw [if_neg (by simpa using hq), hrec]

/-- C4.  The claim as stated is refuted by `c4_counterexample`:
reconstruction from a document's own split output silently drops a
section with a malformed header (its recorded name does not match its
text's header prefix) and duplicates the first occurrence of a repeated
section name.  Amended claim: for every document each of whose stored
sections begins with `[name]` for its recorded name, with pairwise
distinct section names containing no `]`, reconstructing from the
unmodified split/classify output (empty edited list, the
included/excluded buckets, original order) yields exactly the
newline-join of the document's split sections in original order — the
original document modulo the splitter's own per-section edge-whitespace
trimming and its discarding of content before the first header. -/
theorem c4_reconstruct_roundtrip (content : String) (allowedNames : List String)
    (hwf : ∀ p ∈ (splitPairs content).1, strStartsWith p.1 ("[" ++ p.2 ++ "]"))
    (hnodup : ((splitPairs content).1.map Prod.snd).Nodup)
    (hnobr : ∀ p ∈ (splitPairs content).1, ']' ∉ p.2.data) :
    reconstructPP3Content (splitPP3ContentBySections content allowedNames).sectionOrders []
        (splitPP3ContentBySections content allowedNames).includedSections
        (splitPP3ContentBySections content allowedNames).excludedSections =
      joinLines (splitPP3ContentBySections content allowedNames).sections := by
  rw [reconstructPP3Content]
  simp only [splitPP3ContentBySections]
  congr 1
  rw [← splitPairs_snd content, List.map_map]
  apply List.map_congr_left
  intro p hp
  have hmem : (p.1, p.2) ∈ (splitPairs content).1 := by simpa using hp
  have hin := find?_pairs_filter p.2 p.1 (fun x => allowedNames.contains x.2)
    (splitPairs content).1 hnodup hwf hnobr (hnobr p hp) hmem
  have hex := find?_pairs_filter p.2 p.1 (fun x => ¬ allowedNames.contains x.2)
    (splitPairs content).1 hnodup hwf hnobr (hnobr p hp) hmem
  by_cases hq : allowedNames.contains p.2
  · simp only [Function.comp, firstSectionNamed, List.find?_nil, hin, hex, hq]
    simp [Option.orElse]
  · simp only [Function.comp, firstSectionNamed, List.find?_nil, hin, hex, hq]
    simp [Option.orElse]

/-- C4 counterexample: a malformed header makes the round-trip drop the
whole section (the output is empty although the document is not), and a
duplicated section name makes reconstruction emit the first occurrence
twice, losing the second — refuting the claim for "every document". -/
theorem c4_counterexample :
    reconstructPP3Content (splitPP3ContentBySections "[Foo\nSharpening=1" []).sectionOrders []
        (splitPP3ContentBySections "[Foo\nSharpening=1" []).includedSections
        (splitPP3ContentBySections "[Foo\nSharpening=1" []).excludedSections = "" ∧
    jsTrim "[Foo\nSharpening=1" ≠ "" ∧
    reconstructPP3Content
        (splitPP3ContentBySections "[General]\nRank=0\n[General]\nRank=5" []).sectionOrders []
        (splitPP3ContentBySections "[General]\nRank=0\n[General]\nRank=5" []).includedSections
        (splitPP3ContentBySections "[General]\nRank=0\n[General]\nRank=5" []).excludedSections =
      "[General]\nRank=0\n[General]\nRank=0" :=
  ⟨rfl, by decide, rfl⟩

/-- C4 witness. -/
theorem c4_witness :
    reconstructPP3Content
        (splitPP3ContentBySections "[Version]\nAppVersion=5.8\n\n[Exposure]\nClip=0.02\n" ["Exposure"]).sectionOrders []
        (splitPP3ContentBySections "[Version]\nAppVersion=5.8\n\n[Exposure]\nClip=0.02\n" ["Exposure"]).includedSections
        (splitPP3ContentBySections "[Version]\nAppVersion=5.8\n\n[Exposure]\nClip=0.02\n" ["Exposure"]).excludedSections =
      joinLines (splitPP3ContentBySections "[Version]\nAppVersion=5.8\n\n[Exposure]\nClip=0.02\n" ["Exposure"]).sections :=
  c4_reconstruct_roundtrip "[Version]\nAppVersion=5.8\n\n[Exposure]\nClip=0.02\n" ["Exposure"]
    (by decide) (by decide) (by decide)

theorem splitLinesData_ne_nil (cs : List Char) : splitLinesData cs ≠ [] := by
  cases cs with
  | nil => simp [splitLinesData]
  | cons c rest =>
    rw [splitLinesData]
    cases h : splitLinesData rest with
    | nil => split_ifs <;> simp
    | cons hd tl => split_ifs <;> simp

theorem splitLinesData_no_newline :
    ∀ cs : List Char, cs.contains '\n' = false → splitLinesData cs = [cs] := by
  intro cs
  induction cs with
  | nil => intro _; rfl
  | cons c rest ih =>
    intro h
    simp only [List.contains_cons, Bool.or_eq_false_iff] at h
    rw [splitLinesData, ih h.2]
    have hc : (c = '\n') = False := by
      simp only [eq_iff_iff, iff_false]
      intro hc
      subst hc
      simp [beq_iff_eq] at h
    simp [hc]

theorem splitLinesData_append (a b : List Char) :
    splitLinesData (a ++ '\n' :: b) = splitLinesData a ++ splitLinesData b := by
  induction a with
  | nil =>
    rw [List.nil_append, splitLinesData]
    cases h : splitLinesData b with
    | nil => exact absurd h (splitLinesData_ne_nil b)
    | cons hd tl => simp [h, splitLinesData]
  | cons c a' ih =>
    rw [List.cons_append, splitLinesData, ih]
    cases h : splitLinesData a' with
    | nil => exact absurd h (splitLinesData_ne_nil a')
    | cons hd tl =>
      have hr : splitLinesData (c :: a') = if c = '\n' then [] :: hd :: tl else (c :: hd) :: tl := by
        rw [splitLinesData, h]
      rw [hr]
      by_cases hc : c = '\n' <;> simp [hc, List.cons_append]

theorem splitLines_append_newline (a b : String) :
    splitLines (a ++ "\n" ++ b) = splitLines a ++ splitLines b := by
  have hnl : ("\n" : String).data = ['\n'] := rfl
  have hd : (a ++ "\n" ++ b).data = a.data ++ '\n' :: b.data := by
    rw [String.data_append, String.data_append, hnl]
    simp
  rw [splitLines, hd, splitLinesData_append, List.map_append]
  rfl

theorem splitLinesData_join :
    ∀ ls : List (List Char), ls ≠ [] → (∀ l ∈ ls, l.contains '\n' = false) →
    splitLinesData (joinLinesData ls) = ls := by
  intro ls
  induction ls with
  | nil => intro h _; exact absurd rfl h
  | cons x t ih =>
    intro _ hnl
    cases t with
    | nil =>
      rw [joinLinesData]
      exact splitLinesData_no_newline x (hnl x (by simp))
    | cons y t' =>
      have hne2 : y :: t' ≠ [] := fun hh => List.noConfusion hh
      have hih := ih hne2 (fun l hl => hnl l (by simp [hl]))
      rw [joinLinesData, splitLinesData_append, hih,
        splitLinesData_no_newline x (hnl x (by simp))]
      · rfl
      · exact hne2

theorem splitLines_joinLines (ls : List String) (hne : ls ≠ [])
    (hnl : ∀ l ∈ ls, l.data.contains '\n' = false) :
    splitLines (joinLines ls) = ls := by
  rw [splitLines, joinLines]
  rw [splitLinesData_join (ls.map String.data) (by simpa using hne)
    (fun l hl => by obtain ⟨s, hs, rfl⟩ := List.mem_map.mp hl; exact hnl s hs)]
  simp only [List.map_map]
  have h2 : ((fun l : List Char => (⟨l⟩ : String)) ∘ String.data) = id := by
    funext s
    exact strMkData s
  rw [h2, List.map_id]

theorem parseFold_search_acc :
    ∀ (ls : List String) (sa ra : List String) (blocks : List SearchReplaceBlock),
    (∀ l ∈ ls, ¬ strStartsWith l "<<<<<<< SEARCH" ∧ ¬ strStartsWith l "=======" ∧
      ¬ strStartsWith l ">>>>>>> REPLACE") →
    ls.foldl parseStep (⟨true, false, sa, ra⟩, blocks) = (⟨true, false, sa ++ ls, ra⟩, blocks) := by
  intro ls
  induction ls with
  | nil => intro sa ra blocks _; simp
  | cons l t ih =>
    intro sa ra blocks h
    have hl := h l (by simp)
    rw [List.foldl_cons]
    have hstep : parseStep (⟨true, false, sa, ra⟩, blocks) l = (⟨true, false, sa ++ [l], ra⟩, blocks) := by
      rw [parseStep]
      rw [if_neg (by simpa using hl.1), if_neg (by simpa using hl.2.1),
        if_neg (by simpa using hl.2.2)]
      simp
    rw [hstep, ih (sa ++ [l]) ra blocks (fun x hx => h x (by simp [hx]))]
    simp

theorem parseFold_replace_acc :
    ∀ (ls : List String) (sa ra : List String) (blocks : List SearchReplaceBlock),
    (∀ l ∈ ls, ¬ strStartsWith l "<<<<<<< SEARCH" ∧ ¬ strStartsWith l "=======" ∧
      ¬ strStartsWith l ">>>>>>> REPLACE") →
    ls.foldl parseStep (⟨false, true, sa, ra⟩, blocks) = (⟨false, true, sa, ra ++ ls⟩, blocks) := by
  intro ls
  induction ls with
  | nil => intro sa ra blocks _; simp
  | cons l t ih =>
    intro sa ra blocks h
    have hl := h l (by simp)
    rw [List.foldl_cons]
    have hstep : parseStep (⟨false, true, sa, ra⟩, blocks) l = (⟨false, true, sa, ra ++ [l]⟩, blocks) := by
      rw [parseStep]
      rw [if_neg (by simpa using hl.1), if_neg (by simpa using hl.2.1),
        if_neg (by simpa using hl.2.2)]
      simp
    rw [hstep, ih sa (ra ++ [l]) blocks (fun x hx => h x (by simp [hx]))]
    simp

/-- C7.  The claim as stated is refuted by `c7_counterexample`: a block
whose search content is a single empty line is emitted with empty search
text — the validity check of `handleReplaceEnd` requires non-empty
accumulated line lists, not non-empty joined text.  Amended claim: a
close marker emits a block exactly when both accumulated line lists are
non-empty — for a block body of marker-free lines, the emitted block's
search and replace texts are the joins of those lines, which may be the
empty string — a trailing block whose close marker is never reached is
never emitted: appending any close-marker-free tail to any input
(completed blocks included) emits nothing new, an input with no close
marker at all emits nothing, and `'<<<<<<< SEARCH\nUnclosed'` yields an
empty block list. -/
theorem c7_unterminated_never_emitted :
    (∀ (text junk : String),
      (∀ l ∈ splitLines junk, ¬ strStartsWith l ">>>>>>> REPLACE") →
      parseSearchReplaceBlocks (text ++ "\n" ++ junk) = parseSearchReplaceBlocks text) ∧
    (∀ (searchLines replaceLines : List String),
      (∀ l ∈ searchLines ++ replaceLines, l.data.contains '\n' = false ∧
        ¬ strStartsWith l "<<<<<<< SEARCH" ∧ ¬ strStartsWith l "=======" ∧
        ¬ strStartsWith l ">>>>>>> REPLACE") →
      parseSearchReplaceBlocks (joinLines ("<<<<<<< SEARCH" :: searchLines ++
          "=======" :: replaceLines ++ [">>>>>>> REPLACE"])) =
        (if searchLines ≠ [] ∧ replaceLines ≠ [] then
          [⟨joinLines searchLines, joinLines replaceLines⟩] else [])) ∧
    (∀ text : String,
      (∀ l ∈ splitLines text, ¬ strStartsWith l ">>>>>>> REPLACE") →
      parseSearchReplaceBlocks text = []) ∧
    parseSearchReplaceBlocks "<<<<<<< SEARCH\nUnclosed" = [] := by
  refine ⟨?_, ?_, fun text h => parseFold_blocks_const _ _ _ h, rfl⟩
  · intro text junk hj
    rw [parseSearchReplaceBlocks, parseSearchReplaceBlocks,
      splitLines_append_newline, List.foldl_append]
    exact parseFold_blocks_const (splitLines junk)
      ((splitLines text).foldl parseStep (⟨false, false, [], []⟩, [])).1
      ((splitLines text).foldl parseStep (⟨false, false, [], []⟩, [])).2 hj
  · intro searchLines replaceLines h
    have hsm : ∀ l ∈ searchLines, ¬ strStartsWith l "<<<<<<< SEARCH" ∧
        ¬ strStartsWith l "=======" ∧ ¬ strStartsWith l ">>>>>>> REPLACE" :=
      fun l hl => (h l (by simp [hl])).2
    have hrm : ∀ l ∈ replaceLines, ¬ strStartsWith l "<<<<<<< SEARCH" ∧
        ¬ strStartsWith l "=======" ∧ ¬ strStartsWith l ">>>>>>> REPLACE" :=
      fun l hl => (h l (by simp [hl])).2
    have hLines : ∀ l ∈ ("<<<<<<< SEARCH" :: searchLines ++
        "=======" :: replaceLines ++ [">>>>>>> REPLACE"]), l.data.contains '\n' = false := by
      intro l hl
      by_cases h1 : l ∈ searchLines
      · exact (h l (by simp [h1])).1
      by_cases h2 : l ∈ replaceLines
      · exact (h l (by simp [h2])).1
      have hm : l = "<<<<<<< SEARCH" ∨ l = "=======" ∨ l = ">>>>>>> REPLACE" := by
        simp only [List.cons_append, List.mem_cons, List.mem_append,
          List.mem_singleton] at hl
        tauto
      rcases hm with rfl | rfl | rfl <;> decide
    have h1 : parseStep (⟨false, false, [], []⟩, ([] : List SearchReplaceBlock))
        "<<<<<<< SEARCH" = (⟨true, false, [], []⟩, []) := rfl
    have h2 : parseStep (⟨true, false, searchLines, []⟩, ([] : List SearchReplaceBlock))
        "=======" = (⟨false, true, searchLines, []⟩, []) := rfl
    have h3 : parseStep (⟨false, true, searchLines, replaceLines⟩,
        ([] : List SearchReplaceBlock)) ">>>>>>> REPLACE" =
        (⟨false, false, searchLines, replaceLines⟩,
          if searchLines ≠ [] ∧ replaceLines ≠ [] then
            [⟨joinLines searchLines, joinLines replaceLines⟩] else []) := rfl
    have e1 : List.foldl parseStep
        ((⟨true, false, [], []⟩ : SRParseState), ([] : List SearchReplaceBlock)) searchLines =
        ((⟨true, false, searchLines, []⟩ : SRParseState), []) := by
      rw [parseFold_search_acc searchLines [] [] [] hsm]
      simp
    have e2 : List.foldl parseStep
        ((⟨false, true, searchLines, []⟩ : SRParseState), ([] : List SearchReplaceBlock))
          replaceLines =
        ((⟨false, true, searchLines, replaceLines⟩ : SRParseState), []) := by
      rw [parseFold_replace_acc replaceLines searchLines [] [] hrm]
      simp
    rw [parseSearchReplaceBlocks]
    rw [splitLines_joinLines _ (fun hh => List.noConfusion hh) hLines]
    simp only [List.cons_append, List.append_assoc]
    rw [List.foldl_cons, h1, List.foldl_append, e1, List.foldl_cons, h2,
      List.foldl_append, e2, List.foldl_cons, h3]
    rfl

/-- C7 witness. -/
theorem c7_witness :
    parseSearchReplaceBlocks
        ("<<<<<<< SEARCH\nClip=0.02\n=======\nClip=0.1\n>>>>>>> REPLACE" ++ "\n" ++
          "<<<<<<< SEARCH\nTrailing") =
      parseSearchReplaceBlocks
        "<<<<<<< SEARCH\nClip=0.02\n=======\nClip=0.1\n>>>>>>> REPLACE" ∧
    parseSearchReplaceBlocks (joinLines ("<<<<<<< SEARCH" :: ["Clip=0.02"] ++
        "=======" :: ["Clip=0.1"] ++ [">>>>>>> REPLACE"])) =
      (if (["Clip=0.02"] : List String) ≠ [] ∧ (["Clip=0.1"] : List String) ≠ [] then
        [⟨joinLines ["Clip=0.02"], joinLines ["Clip=0.1"]⟩] else []) ∧
    parseSearchReplaceBlocks "<<<<<<< SEARCH\n[Exposure]\n=======\n[Exposure]\nClip=0.1" = [] :=
  ⟨c7_unterminated_never_emitted.1 _ _ (by decide),
   c7_unterminated_never_emitted.2.1 ["Clip=0.02"] ["Clip=0.1"] (by decide),
   c7_unterminated_never_emitted.2.2.1 _ (by decide)⟩
